

import Mathlib

/-!
# Verification of the FOMC calendar extraction engine

This development is a shallow embedding of the entry-extraction engine of
`fomc_scraper` (files `parse_current.py`, `parse_historical.py`,
`parse_future.py`).  Free-text date recognition is embedded at the level of
the concrete regular expressions used by the source (month alternation with
Python's leftmost-match / greedy-with-backtracking semantics), and the three
page pipelines are embedded over abstract "containers": the DOM walking done
by BeautifulSoup (candidate discovery, ancestor climbing, year-heading
resolution, link classification) is represented by the fields of a container
record, while every piece of string processing, date arithmetic, gating,
keying, deduplication and merging logic is translated directly from the
Python source.
-/

/-- ASCII word character, as used by `\b` and `\w` in the source's regexes
(the inputs of interest are ASCII). -/
def isWordChar (c : Char) : Bool :=
  c.isAlpha || c.isDigit || c = '_'

/-- Whitespace as matched by `\s` (ASCII range). -/
def isSpaceChar (c : Char) : Bool :=
  c = ' ' || c = '\t' || c = '\n' || c = '\r' || c = Char.ofNat 11 || c = Char.ofNat 12

/-- Auxiliary for `re.sub(r"\s+", " ", text)`: each maximal whitespace run
becomes a single space.  The flag records whether the previous character was
part of a whitespace run. -/
def collapseWSAux : Bool → List Char → List Char
  | _, [] => []
  | inRun, c :: rest =>
    if isSpaceChar c then
      if inRun then collapseWSAux true rest
      else ' ' :: collapseWSAux true rest
    else c :: collapseWSAux false rest

/-- Python `str.strip()`: drop whitespace from both ends. -/
def stripWS (l : List Char) : List Char :=
  ((l.dropWhile isSpaceChar).reverse.dropWhile isSpaceChar).reverse

/-- `_normalize_text` from `parse_current.py`:
`re.sub(r"\s+", " ", text).strip()`. -/
def normalize_text (l : List Char) : List Char :=
  stripWS (collapseWSAux false l)

/-- `needle` occurs as a contiguous substring of `hay`
(Python's `needle in hay`). -/
def containsSub (needle hay : List Char) : Bool :=
  match hay with
  | [] => needle.isEmpty
  | _ :: rest => startsWith needle hay || containsSub needle rest
where
  /-- `needle` is an initial segment of `hay`. -/
  startsWith : List Char → List Char → Bool
    | [], _ => true
    | _ :: _, [] => false
    | n :: ns, h :: hs => n = h && startsWith ns hs

/-- Case-insensitive check that `pat` (given lowercase) is an initial
segment of `l`. -/
def startsWithLower : List Char → List Char → Bool
  | [], _ => true
  | _ :: _, [] => false
  | p :: ps, c :: cs => p = c.toLower && startsWithLower ps cs

/-- The month alternation of the source's regexes
(`Jan(?:uary)?|Feb(?:ruary)?|...|Dec(?:ember)?`), flattened: for each
alternative, its possible matched strings in greedy preference order,
paired with the `MONTH_TO_NUM` value.  Alternatives are listed in the
pattern's order; Python tries alternatives left to right and inside each
one prefers the longer (greedy) form first. -/
def monthAlts : List (List Char × Nat) :=
  [ ("january".data, 1), ("jan".data, 1),
    ("february".data, 2), ("feb".data, 2),
    ("march".data, 3), ("mar".data, 3),
    ("april".data, 4), ("apr".data, 4),
    ("may".data, 5),
    ("june".data, 6), ("jun".data, 6),
    ("july".data, 7), ("jul".data, 7),
    ("august".data, 8), ("aug".data, 8),
    ("september".data, 9), ("sept".data, 9), ("sep".data, 9),
    ("october".data, 10), ("oct".data, 10),
    ("november".data, 11), ("nov".data, 11),
    ("december".data, 12), ("dec".data, 12) ]

/-- All ways the month alternation can match at the head of `l`, as
`(month number, matched length)` in backtracking preference order. -/
def monthCandsAt (l : List Char) : List (Nat × Nat) :=
  monthAlts.filterMap fun p =>
    if startsWithLower p.1 l then some (p.2, p.1.length) else none

/-- Try candidates in order with a continuation; mirrors regex
backtracking over an alternation. -/
def firstSome {α β : Type} (xs : List α) (f : α → Option β) : Option β :=
  match xs with
  | [] => none
  | x :: rest =>
    match f x with
    | some r => some r
    | none => firstSome rest f

/-- `\s+` followed by something that is not whitespace: requires at least
one whitespace character and consumes the maximal run (no backtracking is
needed because the continuation in every use site starts with `\d`). -/
def reqSpaces1 (l : List Char) : Option (List Char) :=
  match l with
  | c :: rest => if isSpaceChar c then some (rest.dropWhile isSpaceChar) else none
  | [] => none

/-- `\s*`: consume the maximal whitespace run (the continuation in every
use site cannot match whitespace, so the greedy run is exact). -/
def skipSpaces (l : List Char) : List Char :=
  l.dropWhile isSpaceChar

/-- Numeric value of a digit character. -/
def digitVal (c : Char) : Nat :=
  c.toNat - '0'.toNat

/-- `(\d{1,2})` with greedy backtracking: try the two-digit reading first,
then the one-digit reading, each with the continuation `k`. -/
def tryDay {α : Type} (l : List Char) (k : Nat → List Char → Option α) : Option α :=
  match l with
  | c1 :: rest1 =>
    if c1.isDigit then
      match rest1 with
      | c2 :: rest2 =>
        if c2.isDigit then
          match k (10 * digitVal c1 + digitVal c2) rest2 with
          | some r => some r
          | none => k (digitVal c1) rest1
        else k (digitVal c1) rest1
      | [] => k (digitVal c1) []
    else none
  | [] => none

/-- Trailing `\b` directly after a digit: end of string or a non-word
character. -/
def endBoundary (l : List Char) : Bool :=
  match l with
  | [] => true
  | c :: _ => !isWordChar c

/-- The dash class `[-–]` of the date-range regexes in `parse_current.py`
and `parse_historical.py`. -/
def isRangeDash (c : Char) : Bool :=
  c = '-' || c = '–'

/-- Match the cross-month pattern
`\b(m1)/(m2)\s+(\d{1,2})\s*[-–]\s*(\d{1,2})\b` at the current position
(the leading `\b` is checked by the caller).  Returns
`(month1, month2, d1, d2)`. -/
def matchCrossAt (l : List Char) : Option (Nat × Nat × Nat × Nat) :=
  firstSome (monthCandsAt l) fun p1 =>
    match l.drop p1.2 with
    | '/' :: l2 =>
      firstSome (monthCandsAt l2) fun p2 =>
        match reqSpaces1 (l2.drop p2.2) with
        | none => none
        | some l3 =>
          tryDay l3 fun d1 l4 =>
            match skipSpaces l4 with
            | c :: l5 =>
              if isRangeDash c then
                tryDay (skipSpaces l5) fun d2 l6 =>
                  if endBoundary l6 then some (p1.1, p2.1, d1, d2) else none
              else none
            | [] => none
    | _ => none

/-- Match the same-month range pattern
`\b(m1)\s+(\d{1,2})\s*[-–]\s*(\d{1,2})\b` at the current position.
Returns `(month, d1, d2)`. -/
def matchRangeAt (l : List Char) : Option (Nat × Nat × Nat) :=
  firstSome (monthCandsAt l) fun p1 =>
    match reqSpaces1 (l.drop p1.2) with
    | none => none
    | some l3 =>
      tryDay l3 fun d1 l4 =>
        match skipSpaces l4 with
        | c :: l5 =>
          if isRangeDash c then
            tryDay (skipSpaces l5) fun d2 l6 =>
              if endBoundary l6 then some (p1.1, d1, d2) else none
          else none
        | [] => none

/-- Match the single-day pattern `\b(m1)\s+(\d{1,2})\b` at the current
position.  Returns `(month, d)`. -/
def matchSingleAt (l : List Char) : Option (Nat × Nat) :=
  firstSome (monthCandsAt l) fun p1 =>
    match reqSpaces1 (l.drop p1.2) with
    | none => none
    | some l3 =>
      tryDay l3 fun d1 l4 =>
        if endBoundary l4 then some (p1.1, d1) else none

/-- `re.search` driver: try the position-anchored matcher at every
position left to right; a position qualifies only when the leading `\b`
holds there (the month token starts with a word character, so `\b` holds
exactly when the preceding character is absent or a non-word character).
`prevW` records whether the previous character is a word character. -/
def searchPat {α : Type} (m : List Char → Option α) : Bool → List Char → Option α
  | _, [] => none
  | prevW, c :: rest =>
    if prevW then searchPat m (isWordChar c) rest
    else
      match m (c :: rest) with
      | some r => some r
      | none => searchPat m (isWordChar c) rest

/-- `re.search` of the cross-month pattern over a whole string. -/
def searchCross (l : List Char) : Option (Nat × Nat × Nat × Nat) :=
  searchPat matchCrossAt false l

/-- `re.search` of the same-month range pattern over a whole string. -/
def searchRange (l : List Char) : Option (Nat × Nat × Nat) :=
  searchPat matchRangeAt false l

/-- `re.search` of the single-day pattern over a whole string. -/
def searchSingle (l : List Char) : Option (Nat × Nat) :=
  searchPat matchSingleAt false l

/-- `MONTH_RE` match at the current position: a month token followed by a
word boundary (the pattern is `\b(alternation)\b`; backtracking tries the
greedy forms first, and any candidate whose remainder starts the word
boundary makes the position match). -/
def matchMonthTokenAt (l : List Char) : Option Nat :=
  firstSome (monthCandsAt l) fun p =>
    if endBoundary (l.drop p.2) then some p.1 else none

/-- `MONTH_RE.search(text) is not None`. -/
def containsMonthToken (l : List Char) : Bool :=
  (searchPat matchMonthTokenAt false l).isSome

/-- `MONTH_RE.search(text)` followed by `MONTH_TO_NUM[m.group(0).lower()]`
as done in `parse_future.py`: number of the first month token. -/
def firstMonthToken (l : List Char) : Option Nat :=
  searchPat matchMonthTokenAt false l

/-- `re.search(r"\(([^)]+)\)", text)`: find the first `(` that is followed
by at least one non-`)` character and then a `)`.  Returns
`(text before the match, group 1, text after the match)`.  A `()` pair
cannot match (the `+` demands a nonempty inside), so scanning continues
past it. -/
def splitParen : List Char → Option (List Char × List Char × List Char)
  | [] => none
  | c :: rest =>
    if c = '(' then
      match rest.dropWhile (fun d => d ≠ ')') with
      | ')' :: tl =>
        let inside := rest.takeWhile (fun d => d ≠ ')')
        if inside.isEmpty then
          match splitParen rest with
          | some (b, i, a) => some ('(' :: b, i, a)
          | none => none
        else some ([], inside, tl)
      | _ => none
    else
      match splitParen rest with
      | some (b, i, a) => some (c :: b, i, a)
      | none => none

/-- Fuel-indexed worker for `re.sub(r"\((?:[^)]*)\)", "", text)`: each
`(` with a later `)` is deleted together with everything up to that `)`;
a `(` with no later `)` matches nothing, and then nothing later can match
either.  One unit of fuel per character of the input is always enough
because every recursive call strictly shortens the list. -/
def removeParensAux : Nat → List Char → List Char
  | 0, l => l
  | _ + 1, [] => []
  | fuel + 1, c :: rest =>
    if c = '(' then
      match rest.dropWhile (fun d => d ≠ ')') with
      | ')' :: tl => removeParensAux fuel tl
      | _ => c :: rest
    else c :: removeParensAux fuel rest

/-- `re.sub(r"\((?:[^)]*)\)", "", text)` from `_parse_dates_from_text`. -/
def removeParens (l : List Char) : List Char :=
  removeParensAux l.length l

/-- `re.sub(r"\*+", "", text)`: delete every asterisk. -/
def removeStars (l : List Char) : List Char :=
  l.filter (fun c => c ≠ '*')

/-- A calendar date triple, the content of the `YYYY-MM-DD` strings the
source builds with `f"{year:04d}-{month:02d}-{day:02d}"` (this rendering
is injective on the triples the engine produces, so keys and comparisons
over the strings coincide with keys and comparisons over the triples). -/
structure DateT where
  y : Nat
  m : Nat
  d : Nat
deriving DecidableEq, Repr

/-- Calendar order on date triples (the order of `datetime.date` and of
the ISO strings). -/
def dateLe (a b : DateT) : Prop :=
  a.y < b.y ∨ (a.y = b.y ∧ (a.m < b.m ∨ (a.m = b.m ∧ a.d ≤ b.d)))

instance : DecidablePred fun p : DateT × DateT => dateLe p.1 p.2 := by
  intro p
  unfold dateLe
  infer_instance

instance (a b : DateT) : Decidable (dateLe a b) := by
  unfold dateLe
  infer_instance

/-- Strict calendar order on date triples. -/
def dateLt (a b : DateT) : Prop :=
  dateLe a b ∧ a ≠ b

instance (a b : DateT) : Decidable (dateLt a b) := by
  unfold dateLt
  infer_instance

/-- Gregorian leap year, as implemented by `datetime`. -/
def isLeap (y : Nat) : Bool :=
  (y % 4 = 0 && y % 100 ≠ 0) || y % 400 = 0

/-- Number of days of month `m` in year `y` (only consulted for
`1 ≤ m ≤ 12`). -/
def daysInMonth (y m : Nat) : Nat :=
  if m = 2 then (if isLeap y then 29 else 28)
  else if m = 4 || m = 6 || m = 9 || m = 11 then 30
  else 31

/-- `datetime.date(y, m, d)`: `some` on a valid date, `none` when the
constructor would raise `ValueError` (month or day out of range, or year
outside `[1, 9999]`). -/
def mkValidDate (y m d : Nat) : Option DateT :=
  if 1 ≤ y ∧ y ≤ 9999 ∧ 1 ≤ m ∧ m ≤ 12 ∧ 1 ≤ d ∧ d ≤ daysInMonth y m then
    some ⟨y, m, d⟩
  else none

/-- Zero-padded decimal rendering, `f"{n:0{w}d}"`. -/
def padNum (w n : Nat) : List Char :=
  let s := (Nat.toDigits 10 n)
  (List.replicate (w - s.length) '0') ++ s

/-- The ISO rendering `f"{year:04d}-{month:02d}-{day:02d}"` used for the
`start_date`/`end_date` fields and the identity key. -/
def isoOfDate (a : DateT) : String :=
  ⟨padNum 4 a.y ++ '-' :: padNum 2 a.m ++ '-' :: padNum 2 a.d⟩

/-- Numeric value of a digit list (`int` on a string of digits). -/
def digitsToNat (l : List Char) : Nat :=
  l.foldl (fun acc c => 10 * acc + digitVal c) 0

/-- `PRESS_DATE_RE.search(url)`: leftmost occurrence of `monetary`
(case-insensitive) immediately followed by eight digits; returns the
eight digit characters (group 1). -/
def findPressDigits : List Char → Option (List Char)
  | [] => none
  | l@(_ :: rest) =>
    if startsWithLower "monetary".data l then
      let ds := (l.drop 8).take 8
      if ds.length = 8 && ds.all Char.isDigit then some ds
      else findPressDigits rest
    else findPressDigits rest

/-- `_extract_press_date_from_url` from `parse_current.py`: extract the
eight-digit group and build `datetime.date(int(ds[0:4]), int(ds[4:6]),
int(ds[6:8]))`, with the `ValueError` of an invalid date caught and
turned into `None`. -/
def extract_press_date_from_url (url : Option String) : Option DateT :=
  match url with
  | none => none
  | some u =>
    match findPressDigits u.data with
    | none => none
    | some ds =>
      mkValidDate (digitsToNat (ds.take 4)) (digitsToNat ((ds.drop 4).take 2))
        (digitsToNat (ds.drop 6))

/-- The date-matching cascade shared verbatim by
`_parse_dates_and_flags` (`parse_current.py`, lines 180-202) and
`_parse_dates_from_text` (`parse_historical.py`, lines 75-99): first the
cross-month pattern, else the same-month range, else the single day.
(The historical variants append `\*?` before the trailing `\b`; as the
optional star never changes which groups are captured, the same matchers
apply.)  Cross-month: `end_year = year + (1 if month2 < month1 else 0)`. -/
def datesFromText (year : Nat) (tw : List Char) : Option (DateT × DateT) :=
  match searchCross tw with
  | some (m1, m2, d1, d2) =>
    some (⟨year, m1, d1⟩, ⟨year + (if m2 < m1 then 1 else 0), m2, d2⟩)
  | none =>
    match searchRange tw with
    | some (m1, d1, d2) => some (⟨year, m1, d1⟩, ⟨year, m1, d2⟩)
    | none =>
      match searchSingle tw with
      | some (m1, d1) => some (⟨year, m1, d1⟩, ⟨year, m1, d1⟩)
      | none => none

/-- Note extraction of `_parse_dates_and_flags`: the first parenthetical
becomes the (stripped) note, and the text used for date matching is the
input with that parenthetical removed, stripped. -/
def noteAndRest (text : List Char) : Option (List Char) × List Char :=
  match splitParen text with
  | some (b, i, a) => (some (stripWS i), stripWS (b ++ a))
  | none => (none, text)

/-- Qualifier resolution of `_parse_dates_and_flags` (lines 204-213 of
`parse_current.py`): the keyword checks run over the lowercased note
only, and only when the note is nonempty (`if note:`).  The
"notation vote" check runs after the "unscheduled" check and overwrites
it. -/
def qualifiersFromNote (note : Option (List Char)) : String × Bool :=
  match note with
  | none => ("Scheduled", false)
  | some n =>
    if n.isEmpty then ("Scheduled", false)
    else
      let ln := n.map Char.toLower
      let mt1 := if containsSub "unscheduled".data ln then "Unscheduled" else "Scheduled"
      let mt := if containsSub "notation vote".data ln then "Notation Vote" else mt1
      let canc := containsSub "cancelled".data ln || containsSub "canceled".data ln
      (mt, canc)

/-- Result of `_parse_dates_and_flags`.  In the source the start and end
dates are two `Optional[str]` values, but every assignment sets both or
neither, so they are embedded as one optional pair of date triples. -/
structure ParsedFlags where
  dates : Option (DateT × DateT)
  meeting_type : String
  is_cancelled : Bool
  has_sep : Bool
deriving DecidableEq, Repr

/-- `_parse_dates_and_flags(year, date_prefix, has_projection=...)` from
`parse_current.py`. -/
def parse_dates_and_flags (year : Nat) (dateText : String) (has_projection : Bool) :
    ParsedFlags :=
  let raw := dateText.data
  let had_star := raw.contains '*'
  let text := normalize_text (removeStars raw)
  let nr := noteAndRest text
  let q := qualifiersFromNote nr.1
  { dates := datesFromText year nr.2
    meeting_type := q.1
    is_cancelled := q.2
    has_sep := had_star || has_projection }

/-- Result of `_parse_dates_from_text` (`parse_historical.py`); the
`has_sep` component is `False` on every return path of the source. -/
structure HistParsed where
  dates : Option (DateT × DateT)
  has_sep : Bool
  meeting_type : String
deriving DecidableEq, Repr

/-- `_parse_dates_from_text(year, text)` from `parse_historical.py`:
qualifiers are read from the whole collapsed lowercased text (`lraw`),
with "notation vote" checked first and "unscheduled" only as an
`elif`; dates are matched on the text with all parentheticals removed
and whitespace collapsed (`clean`). -/
def parse_dates_from_text (year : Nat) (text : String) : HistParsed :=
  let lraw := (normalize_text text.data).map Char.toLower
  let clean := normalize_text (removeParens text.data)
  let mt :=
    if containsSub "notation vote".data lraw then "Notation Vote"
    else if containsSub "unscheduled".data lraw then "Unscheduled"
    else "Scheduled"
  { dates := datesFromText year clean, has_sep := false, meeting_type := mt }

/-- `CURRENT_CALENDAR_URL` from `parse_current.py`. -/
def CURRENT_CALENDAR_URL : String :=
  "https://www.federalreserve.gov/monetarypolicy/fomccalendars.htm"

/-- The `CurrentCalendarEntry` dataclass.  The date fields hold the
content of the source's `YYYY-MM-DD` strings as triples (the rendering
`isoOfDate` is injective, see above). -/
structure CurrentCalendarEntry where
  year : Nat
  start_date : Option DateT
  end_date : Option DateT
  meeting_type : String
  is_cancelled : Bool
  has_sep_projections : Bool
  statement_url_html : Option String
  minutes_url_html : Option String
  press_conference_url_html : Option String
  source_url : String
deriving DecidableEq, Repr

/-- The identity key `(year, start_date, end_date)` (the source keys on
the ISO strings; by injectivity of the rendering the triples key the same
way). -/
abbrev EntryKey := Nat × DateT × DateT

/-- A candidate container of `parse_current_calendar`, after the DOM
stages that this embedding treats as abstract input: `dateText` is the
result of `_extract_date_prefix` + `_ensure_month_prefix` (`date_prefix`
in the source), `year` is the result of `_nearest_year_heading` with the
single-href-year fallback (`None` when both fail), the three URL fields
and `has_projection` are the result of `_collect_links`. -/
structure Container where
  dateText : String
  year : Option Nat
  statement_url_html : Option String
  minutes_url_html : Option String
  press_conference_url_html : Option String
  has_projection : Bool
deriving DecidableEq, Repr

/-- What the loop body of `parse_current_calendar` (lines 255-294) does
for one container before touching the shared `records` dict: skip it,
raise `ValueError`, or produce a fresh keyed record. -/
inductive COutcome where
  | skip
  | err
  | entry (key : EntryKey) (e : CurrentCalendarEntry)
deriving DecidableEq, Repr

/-- Lines 256-294 of `parse_current.py` (everything in the loop body of
`parse_current_calendar` that depends only on the container): the empty /
month-less `date_prefix` check, the unresolved-year check, date parsing,
the statement gate for scheduled non-cancelled entries, the
press-date/end-date cross-check (where `_date_from_iso(end_date)` raises
`ValueError` on a day that does not exist in its month), and the fresh
record of lines 283-294. -/
def container_record (c : Container) : COutcome :=
  let dp := c.dateText.data
  if dp.isEmpty || !containsMonthToken dp then .skip
  else
    match c.year with
    | none => .skip
    | some year =>
      let r := parse_dates_and_flags year c.dateText c.has_projection
      match r.dates with
      | none => .skip
      | some (sd, ed) =>
        if r.meeting_type = "Scheduled" && !r.is_cancelled &&
            c.statement_url_html.isNone then .skip
        else
          let press :=
            if c.statement_url_html.isSome then
              extract_press_date_from_url c.statement_url_html
            else none
          match mkValidDate ed.y ed.m ed.d with
          | none => .err
          | some end_dt =>
            if c.statement_url_html.isSome && press.isSome && press ≠ some end_dt then
              .skip
            else
              .entry (year, sd, ed)
                { year := year
                  start_date := some sd
                  end_date := some ed
                  meeting_type := r.meeting_type
                  is_cancelled := r.is_cancelled
                  has_sep_projections := r.has_sep
                  statement_url_html := c.statement_url_html
                  minutes_url_html := c.minutes_url_html
                  press_conference_url_html := c.press_conference_url_html
                  source_url := CURRENT_CALENDAR_URL }

/-- The insertion-ordered `records` dict of `parse_current_calendar`. -/
abbrev RecMap := List (EntryKey × CurrentCalendarEntry)

/-- `key in records` lookup. -/
def findEntry (k : EntryKey) : RecMap → Option CurrentCalendarEntry
  | [] => none
  | (k', e) :: rest => if k' = k then some e else findEntry k rest

/-- The merge of lines 295-298: fill each unset link field of the
existing record from the new container's links (a link value is never
the empty string, so Python's falsiness test is exactly `is None`). -/
def fillLinks (e : CurrentCalendarEntry) (c : Container) : CurrentCalendarEntry :=
  { e with
    statement_url_html :=
      if e.statement_url_html.isNone then c.statement_url_html
      else e.statement_url_html
    minutes_url_html :=
      if e.minutes_url_html.isNone then c.minutes_url_html
      else e.minutes_url_html
    press_conference_url_html :=
      if e.press_conference_url_html.isNone then c.press_conference_url_html
      else e.press_conference_url_html }

/-- In-place update of the record stored under `k` (position and all
other entries unchanged, as for a Python dict). -/
def updateEntry (k : EntryKey) (f : CurrentCalendarEntry → CurrentCalendarEntry) :
    RecMap → RecMap
  | [] => []
  | (k', e) :: rest =>
    if k' = k then (k', f e) :: rest else (k', e) :: updateEntry k f rest

/-- One iteration of the loop of `parse_current_calendar` over the
`records` dict. -/
def processContainer (records : RecMap) (c : Container) : Except String RecMap :=
  match container_record c with
  | .skip => .ok records
  | .err => .error "ValueError"
  | .entry k e =>
    match findEntry k records with
    | none => .ok (records ++ [(k, e)])
    | some _ => .ok (updateEntry k (fun old => fillLinks old c) records)

/-- The container loop; an uncaught `ValueError` aborts the whole call. -/
def runContainers : List Container → RecMap → Except String RecMap
  | [], recs => .ok recs
  | c :: cs, recs =>
    match processContainer recs c with
    | .error msg => .error msg
    | .ok recs2 => runContainers cs recs2

/-- `parse_current_calendar(html)`, over the sequence in which the
candidate-container set is enumerated (the source holds the candidates
in a Python `set` whose enumeration order is not a function of the HTML
alone).  The output is `records.values()` in insertion order. -/
def parse_current_calendar (containers : List Container) :
    Except String (List CurrentCalendarEntry) :=
  match runContainers containers [] with
  | .error msg => .error msg
  | .ok recs => .ok (recs.map (fun p => p.2))

/-- One discovery item of a historical year page: an anchor-scoped
container of pass 1 or a heading-bounded section of pass 2 of
`_parse_year_page`, after the DOM stages (text assembly and label-based
link classification) that this embedding treats as abstract input. -/
structure HistItem where
  text : String
  statement_url_html : Option String
  minutes_url_html : Option String
  press_conference_url_html : Option String
  has_projection : Bool
deriving DecidableEq, Repr

/-- The body of both passes of `_parse_year_page`: parse dates from the
item's text, read `is_cancelled` from the whole lowercased text, build
the key, and skip the item entirely when the key was already seen. -/
def parseYearAux (year : Nat) (source_url : String) :
    List HistItem → List EntryKey → List CurrentCalendarEntry
  | [], _ => []
  | it :: rest, seen =>
    let r := parse_dates_from_text year it.text
    match r.dates with
    | none => parseYearAux year source_url rest seen
    | some (sd, ed) =>
      let lower := it.text.data.map Char.toLower
      let is_cancelled :=
        containsSub "cancelled".data lower || containsSub "canceled".data lower
      let key : EntryKey := (year, sd, ed)
      if key ∈ seen then parseYearAux year source_url rest seen
      else
        { year := year
          start_date := some sd
          end_date := some ed
          meeting_type := r.meeting_type
          is_cancelled := is_cancelled
          has_sep_projections := it.has_projection
          statement_url_html := it.statement_url_html
          minutes_url_html := it.minutes_url_html
          press_conference_url_html := it.press_conference_url_html
          source_url := source_url } ::
          parseYearAux year source_url rest (key :: seen)

/-- `_parse_year_page(year, html, source_url=...)`: the items of pass 1
(anchor-scoped) followed by those of pass 2 (heading-bounded) run over
one shared `seen` set, fresh per page. -/
def parse_year_page (year : Nat) (items : List HistItem) (source_url : String) :
    List CurrentCalendarEntry :=
  parseYearAux year source_url items []

/-- `parse_historical(years)`, over the fetched pages: each element is
one `(year, url)` pair of the `links` list that fetched successfully,
with its discovery items.  The per-page results are concatenated; the
`seen` set does not persist across pages. -/
def parse_historical : List (Nat × String × List HistItem) → List CurrentCalendarEntry
  | [] => []
  | (y, url, items) :: rest => parse_year_page y items url ++ parse_historical rest

/-- The dash class of `_DAY_RANGE_ONLY_RE` in `parse_future.py`.  The
source file carries the en dash in mojibake form, so the class is
literally `[-â€“]`. -/
def isFutureDash (c : Char) : Bool :=
  c = '-' || c = 'â' || c = '€' || c = '“'

/-- Anchored match of `^(\d{1,2})\s*[-â€“]\s*(\d{1,2})\*?$`
(`_DAY_RANGE_ONLY_RE.match`, which must consume the whole string because
of the anchors). -/
def matchDayRange (l : List Char) : Option (Nat × Nat) :=
  tryDay l fun d1 l2 =>
    match skipSpaces l2 with
    | c :: l3 =>
      if isFutureDash c then
        tryDay (skipSpaces l3) fun d2 l4 =>
          match l4 with
          | [] => some (d1, d2)
          | ['*'] => some (d1, d2)
          | _ => none
      else none
    | [] => none

/-- Anchored match of `^(\d{1,2})\*?$` (`_DAY_SINGLE_ONLY_RE.match`). -/
def matchDaySingle (l : List Char) : Option Nat :=
  tryDay l fun d1 l2 =>
    match l2 with
    | [] => some d1
    | ['*'] => some d1
    | _ => none

/-- `_parse_with_dom(year, section)` over the `(month_text, date_text)`
column texts of the section's `fomc-meeting` rows (the DOM row discovery
is abstract input): resolve the first month token, then read the day
range or single day; the star flag is `'*' in date_text`.  The guard
`month_name not in MONTH_TO_NUM` of the source can never fire because
every string `MONTH_RE` can produce is a key of `MONTH_TO_NUM`. -/
def parse_with_dom (year : Nat) (rows : List (String × String)) :
    List (DateT × DateT × Bool) :=
  rows.filterMap fun p =>
    if p.1.isEmpty || p.2.isEmpty then none
    else
      match firstMonthToken p.1.data with
      | none => none
      | some mn =>
        let dt := p.2.data
        match matchDayRange dt with
        | some (d1, d2) =>
          some (⟨year, mn, d1⟩, ⟨year, mn, d2⟩, dt.contains '*')
        | none =>
          match matchDaySingle dt with
          | some d1 => some (⟨year, mn, d1⟩, ⟨year, mn, d1⟩, dt.contains '*')
          | none => none

/-- The candidate loop of `parse_future_calendar` (lines 92-116 of
`parse_future.py`): `date.fromisoformat(end)` raises on an invalid
calendar date (the day does not exist in the month) and the exception is
caught and turned into `continue`; entries ending strictly before
`today` are skipped; keys already seen are skipped; surviving candidates
become entries with fixed classification and no links. -/
def futureRows (today : DateT) :
    List (Nat × DateT × DateT × Bool) → List EntryKey → List CurrentCalendarEntry
  | [], _ => []
  | (year, s, e, star) :: rest, seen =>
    match mkValidDate e.y e.m e.d with
    | none => futureRows today rest seen
    | some e_dt =>
      if dateLt e_dt today then futureRows today rest seen
      else if (year, s, e) ∈ seen then futureRows today rest seen
      else
        { year := year
          start_date := some s
          end_date := some e
          meeting_type := "Scheduled"
          is_cancelled := false
          has_sep_projections := star
          statement_url_html := none
          minutes_url_html := none
          press_conference_url_html := none
          source_url := CURRENT_CALENDAR_URL } ::
          futureRows today rest ((year, s, e) :: seen)

/-- `parse_future_calendar(html)` over the year sections the page
yields (`_iter_year_sections` is abstract input: one `(year, rows)` pair
per qualifying heading), with `today` passed explicitly for
`datetime.date.today()`.  One `seen` set spans all sections. -/
def parse_future_calendar (today : DateT)
    (sections : List (Nat × List (String × String))) : List CurrentCalendarEntry :=
  futureRows today
    ((sections.map fun p => (parse_with_dom p.1 p.2).map fun r => (p.1, r)).flatten) []

/-- Entries of a successful extraction call (`[]` for a raised
exception). -/
def okEntries (r : Except String (List CurrentCalendarEntry)) :
    List CurrentCalendarEntry :=
  match r with
  | .ok l => l
  | .error _ => []

/-- Whether the extraction call returned instead of raising. -/
def exceptOk (r : Except String (List CurrentCalendarEntry)) : Bool :=
  match r with
  | .ok _ => true
  | .error _ => false

/-- The identity key read back off an output entry. -/
def entryKey (e : CurrentCalendarEntry) : Nat × Option DateT × Option DateT :=
  (e.year, e.start_date, e.end_date)

/-- Ordering fact produced by the date cascade: either the start is at
most the end, or the two dates share year and month and the end day is
strictly below the start day (a reversed same-month range). -/
def dOrd (s t : DateT) : Prop :=
  dateLe s t ∨ (s.y = t.y ∧ s.m = t.m ∧ t.d < s.d)

instance (s t : DateT) : Decidable (dOrd s t) := by
  unfold dOrd
  infer_instance

/-- The per-record invariant maintained by the `records` dict of
`parse_current_calendar`: the stored entry's year and dates agree with
its key, and the dates satisfy the ordering fact of the date cascade. -/
def goodPair (p : EntryKey × CurrentCalendarEntry) : Prop :=
  p.2.year = p.1.1 ∧ p.2.start_date = some p.1.2.1 ∧
    p.2.end_date = some p.1.2.2 ∧ dOrd p.1.2.1 p.1.2.2

/-- Keys rendered the way an output entry shows them. -/
def keyView (k : EntryKey) : Nat × Option DateT × Option DateT :=
  (k.1, some k.2.1, some k.2.2)

/-- The container derives this identity key (reaches the keyed branch of
the loop body). -/
def keyedBy (c : Container) (k : EntryKey) : Prop :=
  ∃ e, container_record c = .entry k e

lemma pdf_dates (y : Nat) (s : String) (pr : Bool) :
    (parse_dates_and_flags y s pr).dates =
      datesFromText y (noteAndRest (normalize_text (removeStars s.data))).2 := rfl

lemma pdt_dates (y : Nat) (s : String) :
    (parse_dates_from_text y s).dates =
      datesFromText y (normalize_text (removeParens s.data)) := rfl

lemma datesFromText_ord {year : Nat} {tw : List Char} {s t : DateT}
    (h : datesFromText year tw = some (s, t)) : dOrd s t := by
  unfold datesFromText at h
  split at h
  · rename_i m1 m2 d1 d2 _
    injection h with h'
    obtain ⟨h1, h2⟩ := Prod.mk.injEq _ _ _ _ ▸ h'
    subst h1
    subst h2
    by_cases hm : m2 < m1
    · simp only [hm, if_pos]
      unfold dOrd dateLe
      dsimp only
      omega
    · simp only [hm, if_neg, not_false_iff]
      unfold dOrd dateLe
      dsimp only
      omega
  · split at h
    · rename_i m1 d1 d2 _
      injection h with h'
      obtain ⟨h1, h2⟩ := Prod.mk.injEq _ _ _ _ ▸ h'
      subst h1
      subst h2
      unfold dOrd dateLe
      dsimp only
      omega
    · split at h
      · rename_i m1 d1 _
        injection h with h'
        obtain ⟨h1, h2⟩ := Prod.mk.injEq _ _ _ _ ▸ h'
        subst h1
        subst h2
        unfold dOrd dateLe
        dsimp only
        omega
      · exact absurd h (by simp)

lemma findEntry_eq_none_iff (k : EntryKey) (recs : RecMap) :
    findEntry k recs = none ↔ k ∉ recs.map Prod.fst := by
  induction recs with
  | nil => simp [findEntry]
  | cons p rest ih =>
    by_cases hk : p.1 = k
    · simp [findEntry, hk]
    · simp [findEntry, hk, ih, Ne.symm hk]

lemma map_fst_updateEntry (k : EntryKey)
    (f : CurrentCalendarEntry → CurrentCalendarEntry) (recs : RecMap) :
    (updateEntry k f recs).map Prod.fst = recs.map Prod.fst := by
  induction recs with
  | nil => rfl
  | cons p rest ih =>
    by_cases hk : p.1 = k
    · simp [updateEntry, hk]
    · simp [updateEntry, hk, ih]

lemma mem_updateEntry {k : EntryKey}
    {f : CurrentCalendarEntry → CurrentCalendarEntry} {recs : RecMap}
    {p : EntryKey × CurrentCalendarEntry} (hp : p ∈ updateEntry k f recs) :
    p ∈ recs ∨ ∃ q ∈ recs, q.1 = k ∧ p = (k, f q.2) := by
  induction recs with
  | nil => simp [updateEntry] at hp
  | cons q rest ih =>
    by_cases hk : q.1 = k
    · rw [updateEntry, if_pos hk] at hp
      rcases List.mem_cons.1 hp with h | h
      · exact Or.inr ⟨q, List.mem_cons_self _ _, hk, by rw [h, hk]⟩
      · exact Or.inl (List.mem_cons_of_mem _ h)
    · rw [updateEntry, if_neg hk] at hp
      rcases List.mem_cons.1 hp with h | h
      · exact Or.inl (h ▸ List.mem_cons_self _ _)
      · rcases ih h with h' | ⟨r, hr, hrk, hpr⟩
        · exact Or.inl (List.mem_cons_of_mem _ h')
        · exact Or.inr ⟨r, List.mem_cons_of_mem _ hr, hrk, hpr⟩

@[simp] lemma fillLinks_year (e : CurrentCalendarEntry) (c : Container) :
    (fillLinks e c).year = e.year := rfl

@[simp] lemma fillLinks_start (e : CurrentCalendarEntry) (c : Container) :
    (fillLinks e c).start_date = e.start_date := rfl

@[simp] lemma fillLinks_end (e : CurrentCalendarEntry) (c : Container) :
    (fillLinks e c).end_date = e.end_date := rfl

@[simp] lemma fillLinks_mt (e : CurrentCalendarEntry) (c : Container) :
    (fillLinks e c).meeting_type = e.meeting_type := rfl

@[simp] lemma fillLinks_canc (e : CurrentCalendarEntry) (c : Container) :
    (fillLinks e c).is_cancelled = e.is_cancelled := rfl

lemma container_record_entry_inv {c : Container} {k : EntryKey}
    {e : CurrentCalendarEntry} (h : container_record c = .entry k e) :
    ∃ y sd ed,
      c.year = some y ∧
      (parse_dates_and_flags y c.dateText c.has_projection).dates = some (sd, ed) ∧
      k = (y, sd, ed) ∧
      e.year = y ∧ e.start_date = some sd ∧ e.end_date = some ed ∧
      e.meeting_type =
        (parse_dates_and_flags y c.dateText c.has_projection).meeting_type ∧
      e.is_cancelled =
        (parse_dates_and_flags y c.dateText c.has_projection).is_cancelled ∧
      e.statement_url_html = c.statement_url_html ∧
      e.minutes_url_html = c.minutes_url_html ∧
      e.press_conference_url_html = c.press_conference_url_html := by
  simp only [container_record] at h
  split at h
  · exact absurd h (by simp)
  · split at h
    · exact absurd h (by simp)
    · rename_i year hyear
      split at h
      · exact absurd h (by simp)
      · rename_i pr sd ed hdates
        split at h
        · exact absurd h (by simp)
        · split at h
          · exact absurd h (by simp)
          · rename_i end_dt hvalid
            split at h
            all_goals split at h
            all_goals cases h
            all_goals
              exact ⟨year, sd, ed, hyear, hdates, rfl, rfl, rfl, rfl, rfl, rfl,
                rfl, rfl, rfl⟩

lemma processContainer_of_skip {recs : RecMap} {c : Container}
    (h : container_record c = .skip) : processContainer recs c = .ok recs := by
  simp [processContainer, h]

lemma processContainer_of_err {recs : RecMap} {c : Container}
    (h : container_record c = .err) :
    processContainer recs c = .error "ValueError" := by
  simp [processContainer, h]

lemma processContainer_good {recs : RecMap} {c : Container} {recs' : RecMap}
    (h : processContainer recs c = .ok recs')
    (hg : ∀ p ∈ recs, goodPair p) : ∀ p ∈ recs', goodPair p := by
  unfold processContainer at h
  cases hcr : container_record c with
  | skip =>
    rw [hcr] at h
    injection h with h'
    subst h'
    exact hg
  | err =>
    rw [hcr] at h
    cases h
  | entry k e =>
    rw [hcr] at h
    dsimp only at h
    obtain ⟨y, sd, ed, hy, hd, hk, hey, hes, hee, _, _, _⟩ :=
      container_record_entry_inv hcr
    rw [pdf_dates] at hd
    cases hfind : findEntry k recs with
    | none =>
      rw [hfind] at h
      injection h with h'
      subst h'
      intro p hp
      rcases List.mem_append.1 hp with hin | hin
      · exact hg p hin
      · have hpke : p = (k, e) := by simpa using hin
        subst hpke
        subst hk
        exact ⟨hey, hes, hee, datesFromText_ord hd⟩
    | some old =>
      rw [hfind] at h
      injection h with h'
      subst h'
      intro p hp
      rcases mem_updateEntry hp with hin | ⟨q, hq, hqk, hpq⟩
      · exact hg p hin
      · subst hpq
        obtain ⟨g1, g2, g3, g4⟩ := hg q hq
        subst hqk
        exact ⟨by simpa using g1, by simpa using g2, by simpa using g3, g4⟩

lemma runContainers_good :
    ∀ (l : List Container) (recs recs' : RecMap),
      runContainers l recs = .ok recs' → (∀ p ∈ recs, goodPair p) →
      ∀ p ∈ recs', goodPair p := by
  intro l
  induction l with
  | nil =>
    intro recs recs' h hg
    unfold runContainers at h
    injection h with h'
    subst h'
    exact hg
  | cons c cs ih =>
    intro recs recs' h hg
    unfold runContainers at h
    cases hpc : processContainer recs c with
    | error msg => rw [hpc] at h; cases h
    | ok recs2 =>
      rw [hpc] at h
      exact ih recs2 recs' h (processContainer_good hpc hg)

lemma processContainer_nodup {recs : RecMap} {c : Container} {recs' : RecMap}
    (h : processContainer recs c = .ok recs')
    (hn : (recs.map Prod.fst).Nodup) : (recs'.map Prod.fst).Nodup := by
  unfold processContainer at h
  cases hcr : container_record c with
  | skip =>
    rw [hcr] at h
    injection h with h'
    subst h'
    exact hn
  | err =>
    rw [hcr] at h
    cases h
  | entry k e =>
    rw [hcr] at h
    dsimp only at h
    cases hfind : findEntry k recs with
    | none =>
      rw [hfind] at h
      injection h with h'
      subst h'
      have hkmem : k ∉ recs.map Prod.fst := (findEntry_eq_none_iff k recs).1 hfind
      simp only [List.map_append, List.map_cons, List.map_nil]
      refine List.Nodup.append hn (by simp) ?_
      intro a ha hak
      rw [List.mem_singleton] at hak
      subst hak
      exact hkmem ha
    | some old =>
      rw [hfind] at h
      injection h with h'
      subst h'
      rw [map_fst_updateEntry]
      exact hn

lemma runContainers_nodup :
    ∀ (l : List Container) (recs recs' : RecMap),
      runContainers l recs = .ok recs' → (recs.map Prod.fst).Nodup →
      (recs'.map Prod.fst).Nodup := by
  intro l
  induction l with
  | nil =>
    intro recs recs' h hn
    unfold runContainers at h
    injection h with h'
    subst h'
    exact hn
  | cons c cs ih =>
    intro recs recs' h hn
    unfold runContainers at h
    cases hpc : processContainer recs c with
    | error msg => rw [hpc] at h; cases h
    | ok recs2 =>
      rw [hpc] at h
      exact ih recs2 recs' h (processContainer_nodup hpc hn)

lemma keyView_inj : Function.Injective keyView := by
  intro a b h
  unfold keyView at h
  injection h with h1 h2
  injection h2 with h2a h2b
  exact Prod.ext h1 (Prod.ext (Option.some.inj h2a) (Option.some.inj h2b))

lemma map_entryKey_eq {recs : RecMap} (hg : ∀ p ∈ recs, goodPair p) :
    recs.map (fun p => entryKey p.2) = (recs.map Prod.fst).map keyView := by
  induction recs with
  | nil => rfl
  | cons p rest ih =>
    obtain ⟨g1, g2, g3, _⟩ := hg p (List.mem_cons_self _ _)
    simp only [List.map_cons]
    refine congrArg₂ _ ?_ (ih fun q hq => hg q (List.mem_cons_of_mem _ hq))
    unfold entryKey keyView
    rw [g1, g2, g3]

lemma runContainers_no_err :
    ∀ (l : List Container) (recs recs' : RecMap),
      runContainers l recs = .ok recs' → ∀ c ∈ l, container_record c ≠ .err := by
  intro l
  induction l with
  | nil => intro recs recs' _ c hc; cases hc
  | cons c0 cs ih =>
    intro recs recs' h c hc
    unfold runContainers at h
    cases hpc : processContainer recs c0 with
    | error msg => rw [hpc] at h; cases h
    | ok recs2 =>
      rw [hpc] at h
      rcases List.mem_cons.1 hc with hc0 | hcs
      · subst hc0
        intro herr
        rw [processContainer_of_err herr] at hpc
        cases hpc
      · exact ih recs2 recs' h c hcs

lemma runContainers_ok_of_no_err :
    ∀ (l : List Container) (recs : RecMap),
      (∀ c ∈ l, container_record c ≠ .err) →
      ∃ recs', runContainers l recs = .ok recs' := by
  intro l
  induction l with
  | nil => intro recs _; exact ⟨recs, rfl⟩
  | cons c0 cs ih =>
    intro recs hne
    have h0 : container_record c0 ≠ .err := hne c0 (List.mem_cons_self _ _)
    have hrest : ∀ c ∈ cs, container_record c ≠ .err :=
      fun c hc => hne c (List.mem_cons_of_mem _ hc)
    cases hcr : container_record c0 with
    | skip =>
      obtain ⟨recs', hr⟩ := ih recs hrest
      exact ⟨recs', by unfold runContainers; rw [processContainer_of_skip hcr]; exact hr⟩
    | err => exact absurd hcr h0
    | entry k e =>
      cases hfind : findEntry k recs with
      | none =>
        obtain ⟨recs', hr⟩ := ih (recs ++ [(k, e)]) hrest
        refine ⟨recs', ?_⟩
        unfold runContainers processContainer
        rw [hcr]
        dsimp only
        rw [hfind]
        exact hr
      | some old =>
        obtain ⟨recs', hr⟩ := ih (updateEntry k (fun o => fillLinks o c0) recs) hrest
        refine ⟨recs', ?_⟩
        unfold runContainers processContainer
        rw [hcr]
        dsimp only
        rw [hfind]
        exact hr

lemma runContainers_keys :
    ∀ (l : List Container) (recs recs' : RecMap),
      runContainers l recs = .ok recs' →
      ∀ k, k ∈ recs'.map Prod.fst ↔
        (k ∈ recs.map Prod.fst ∨ ∃ c ∈ l, keyedBy c k) := by
  intro l
  induction l with
  | nil =>
    intro recs recs' h k
    unfold runContainers at h
    injection h with h'
    subst h'
    simp
  | cons c0 cs ih =>
    intro recs recs' h k
    unfold runContainers at h
    cases hpc : processContainer recs c0 with
    | error msg => rw [hpc] at h; cases h
    | ok recs2 =>
      rw [hpc] at h
      have base := ih recs2 recs' h k
      unfold processContainer at hpc
      cases hcr : container_record c0 with
      | skip =>
        rw [hcr] at hpc
        injection hpc with h2
        subst h2
        rw [base]
        have hnk : ¬ keyedBy c0 k := by
          rintro ⟨e, he⟩
          rw [hcr] at he
          cases he
        simp [hnk]
      | err =>
        rw [hcr] at hpc
        cases hpc
      | entry k0 e =>
        rw [hcr] at hpc
        dsimp only at hpc
        have hkey : ∀ κ, keyedBy c0 κ ↔ κ = k0 := by
          intro κ
          constructor
          · rintro ⟨e', he'⟩
            rw [hcr] at he'
            injection he' with hk' _
            exact hk'.symm
          · rintro rfl
            exact ⟨e, hcr⟩
        cases hfind : findEntry k0 recs with
        | none =>
          rw [hfind] at hpc
          injection hpc with h2
          subst h2
          rw [base]
          simp only [List.map_append, List.map_cons, List.map_nil,
            List.mem_append, List.mem_singleton]
          constructor
          · rintro ((hm | hm) | ⟨c, hc, hck⟩)
            · exact Or.inl hm
            · exact Or.inr ⟨c0, List.mem_cons_self _ _, (hkey k).2 hm⟩
            · exact Or.inr ⟨c, List.mem_cons_of_mem _ hc, hck⟩
          · rintro (hm | ⟨c, hc, hck⟩)
            · exact Or.inl (Or.inl hm)
            · rcases List.mem_cons.1 hc with heq | hccs
              · subst heq
                exact Or.inl (Or.inr ((hkey k).1 hck))
              · exact Or.inr ⟨c, hccs, hck⟩
        | some old =>
          rw [hfind] at hpc
          injection hpc with h2
          subst h2
          rw [base, map_fst_updateEntry]
          have hk0mem : k0 ∈ recs.map Prod.fst := by
            by_contra hn
            rw [← findEntry_eq_none_iff] at hn
            rw [hn] at hfind
            cases hfind
          constructor
          · rintro (hm | ⟨c, hc, hck⟩)
            · exact Or.inl hm
            · exact Or.inr ⟨c, List.mem_cons_of_mem _ hc, hck⟩
          · rintro (hm | ⟨c, hc, hck⟩)
            · exact Or.inl hm
            · rcases List.mem_cons.1 hc with heq | hccs
              · subst heq
                have hck0 : k = k0 := (hkey k).1 hck
                subst hck0
                exact Or.inl hk0mem
              · exact Or.inr ⟨c, hccs, hck⟩

lemma mkValidDate_some {y m d : Nat} {t : DateT} (h : mkValidDate y m d = some t) :
    t = ⟨y, m, d⟩ := by
  unfold mkValidDate at h
  split at h
  · injection h with h'
    exact h'.symm
  · cases h

lemma parseYearAux_cons_none {year : Nat} {url : String} {it : HistItem}
    {rest : List HistItem} {seen : List EntryKey}
    (h : (parse_dates_from_text year it.text).dates = none) :
    parseYearAux year url (it :: rest) seen = parseYearAux year url rest seen := by
  simp only [parseYearAux, h]

lemma parseYearAux_cons_seen {year : Nat} {url : String} {it : HistItem}
    {rest : List HistItem} {seen : List EntryKey} {sd ed : DateT}
    (h : (parse_dates_from_text year it.text).dates = some (sd, ed))
    (hs : (year, sd, ed) ∈ seen) :
    parseYearAux year url (it :: rest) seen = parseYearAux year url rest seen := by
  simp only [parseYearAux, h]
  rw [if_pos hs]

lemma parseYearAux_cons_new {year : Nat} {url : String} {it : HistItem}
    {rest : List HistItem} {seen : List EntryKey} {sd ed : DateT}
    (h : (parse_dates_from_text year it.text).dates = some (sd, ed))
    (hs : (year, sd, ed) ∉ seen) :
    parseYearAux year url (it :: rest) seen =
      { year := year
        start_date := some sd
        end_date := some ed
        meeting_type := (parse_dates_from_text year it.text).meeting_type
        is_cancelled :=
          containsSub "cancelled".data (it.text.data.map Char.toLower) ||
            containsSub "canceled".data (it.text.data.map Char.toLower)
        has_sep_projections := it.has_projection
        statement_url_html := it.statement_url_html
        minutes_url_html := it.minutes_url_html
        press_conference_url_html := it.press_conference_url_html
        source_url := url } ::
        parseYearAux year url rest ((year, sd, ed) :: seen) := by
  simp only [parseYearAux, h]
  rw [if_neg hs]

lemma parseYearAux_spec (year : Nat) (url : String) :
    ∀ (items : List HistItem) (seen : List EntryKey),
      ((parseYearAux year url items seen).map entryKey).Nodup ∧
      ∀ e ∈ parseYearAux year url items seen,
        ∃ sd ed, e.start_date = some sd ∧ e.end_date = some ed ∧
          dOrd sd ed ∧ (year, sd, ed) ∉ seen ∧ e.year = year := by
  intro items
  induction items with
  | nil =>
    intro seen
    constructor
    · simp [parseYearAux]
    · intro e he
      simp [parseYearAux] at he
  | cons it rest ih =>
    intro seen
    cases hd : (parse_dates_from_text year it.text).dates with
    | none =>
      rw [parseYearAux_cons_none hd]
      exact ih seen
    | some p =>
      obtain ⟨sd, ed⟩ := p
      by_cases hs : (year, sd, ed) ∈ seen
      · rw [parseYearAux_cons_seen hd hs]
        exact ih seen
      · rw [parseYearAux_cons_new hd hs]
        have hord : dOrd sd ed := by
          rw [pdt_dates] at hd
          exact datesFromText_ord hd
        obtain ⟨ihn, ihm⟩ := ih ((year, sd, ed) :: seen)
        constructor
        · rw [List.map_cons]
          refine List.nodup_cons.2 ⟨?_, ihn⟩
          intro hmem
          obtain ⟨e', he', hke⟩ := List.mem_map.1 hmem
          obtain ⟨sd', ed', h1, h2, _, h4, h5⟩ := ihm e' he'
          apply h4
          unfold entryKey at hke
          rw [h1, h2, h5] at hke
          injection hke with k1 k2
          injection k2 with k2a k2b
          rw [Option.some.inj k2a, Option.some.inj k2b]
          exact List.mem_cons_self _ _
        · intro e he
          rcases List.mem_cons.1 he with heq | hmem
          · subst heq
            exact ⟨sd, ed, rfl, rfl, hord, hs, rfl⟩
          · obtain ⟨sd', ed', h1, h2, h3, h4, h5⟩ := ihm e hmem
            exact ⟨sd', ed', h1, h2, h3, fun hx => h4 (List.mem_cons_of_mem _ hx), h5⟩

lemma parse_with_dom_shape {y : Nat} {rows : List (String × String)}
    {r : DateT × DateT × Bool} (hr : r ∈ parse_with_dom y rows) :
    r.1.y = r.2.1.y ∧ r.1.m = r.2.1.m := by
  unfold parse_with_dom at hr
  obtain ⟨a, _, hfa⟩ := List.mem_filterMap.1 hr
  split at hfa
  · cases hfa
  · split at hfa
    · cases hfa
    · dsimp only at hfa
      split at hfa
      · injection hfa with h'
        rw [← h']
        exact ⟨rfl, rfl⟩
      · split at hfa
        · injection hfa with h'
          rw [← h']
          exact ⟨rfl, rfl⟩
        · cases hfa

lemma futureRows_cons_invalid {today : DateT} {year : Nat} {s e : DateT}
    {star : Bool} {rest : List (Nat × DateT × DateT × Bool)} {seen : List EntryKey}
    (h : mkValidDate e.y e.m e.d = none) :
    futureRows today ((year, s, e, star) :: rest) seen = futureRows today rest seen := by
  simp only [futureRows, h]

lemma futureRows_cons_past {today : DateT} {year : Nat} {s e e_dt : DateT}
    {star : Bool} {rest : List (Nat × DateT × DateT × Bool)} {seen : List EntryKey}
    (h : mkValidDate e.y e.m e.d = some e_dt) (hlt : dateLt e_dt today) :
    futureRows today ((year, s, e, star) :: rest) seen = futureRows today rest seen := by
  simp only [futureRows, h]
  rw [if_pos hlt]

lemma futureRows_cons_seen {today : DateT} {year : Nat} {s e e_dt : DateT}
    {star : Bool} {rest : List (Nat × DateT × DateT × Bool)} {seen : List EntryKey}
    (h : mkValidDate e.y e.m e.d = some e_dt) (hlt : ¬ dateLt e_dt today)
    (hs : (year, s, e) ∈ seen) :
    futureRows today ((year, s, e, star) :: rest) seen = futureRows today rest seen := by
  simp only [futureRows, h]
  rw [if_neg hlt, if_pos hs]

lemma futureRows_cons_new {today : DateT} {year : Nat} {s e e_dt : DateT}
    {star : Bool} {rest : List (Nat × DateT × DateT × Bool)} {seen : List EntryKey}
    (h : mkValidDate e.y e.m e.d = some e_dt) (hlt : ¬ dateLt e_dt today)
    (hs : (year, s, e) ∉ seen) :
    futureRows today ((year, s, e, star) :: rest) seen =
      { year := year
        start_date := some s
        end_date := some e
        meeting_type := "Scheduled"
        is_cancelled := false
        has_sep_projections := star
        statement_url_html := none
        minutes_url_html := none
        press_conference_url_html := none
        source_url := CURRENT_CALENDAR_URL } ::
        futureRows today rest ((year, s, e) :: seen) := by
  simp only [futureRows, h]
  rw [if_neg hlt, if_neg hs]

lemma futureRows_spec (today : DateT) :
    ∀ (lst : List (Nat × DateT × DateT × Bool)) (seen : List EntryKey),
      ((futureRows today lst seen).map entryKey).Nodup ∧
      ∀ en ∈ futureRows today lst seen,
        en.meeting_type = "Scheduled" ∧ en.is_cancelled = false ∧
        en.statement_url_html = none ∧ en.minutes_url_html = none ∧
        en.press_conference_url_html = none ∧
        ∃ x ∈ lst, en.year = x.1 ∧ en.start_date = some x.2.1 ∧
          en.end_date = some x.2.2.1 ∧ (x.1, x.2.1, x.2.2.1) ∉ seen := by
  intro lst
  induction lst with
  | nil =>
    intro seen
    constructor
    · simp [futureRows]
    · intro en hen
      simp [futureRows] at hen
  | cons x rest ih =>
    intro seen
    obtain ⟨year, s, e, star⟩ := x
    cases hv : mkValidDate e.y e.m e.d with
    | none =>
      rw [futureRows_cons_invalid hv]
      obtain ⟨ihn, ihm⟩ := ih seen
      refine ⟨ihn, fun en hen => ?_⟩
      obtain ⟨p1, p2, p3, p4, p5, xx, hx, hrest⟩ := ihm en hen
      exact ⟨p1, p2, p3, p4, p5, xx, List.mem_cons_of_mem _ hx, hrest⟩
    | some e_dt =>
      by_cases hlt : dateLt e_dt today
      · rw [futureRows_cons_past hv hlt]
        obtain ⟨ihn, ihm⟩ := ih seen
        refine ⟨ihn, fun en hen => ?_⟩
        obtain ⟨p1, p2, p3, p4, p5, xx, hx, hrest⟩ := ihm en hen
        exact ⟨p1, p2, p3, p4, p5, xx, List.mem_cons_of_mem _ hx, hrest⟩
      · by_cases hs : (year, s, e) ∈ seen
        · rw [futureRows_cons_seen hv hlt hs]
          obtain ⟨ihn, ihm⟩ := ih seen
          refine ⟨ihn, fun en hen => ?_⟩
          obtain ⟨p1, p2, p3, p4, p5, xx, hx, hrest⟩ := ihm en hen
          exact ⟨p1, p2, p3, p4, p5, xx, List.mem_cons_of_mem _ hx, hrest⟩
        · rw [futureRows_cons_new hv hlt hs]
          obtain ⟨ihn, ihm⟩ := ih ((year, s, e) :: seen)
          constructor
          · rw [List.map_cons]
            refine List.nodup_cons.2 ⟨?_, ihn⟩
            intro hmem
            obtain ⟨en', hen', hke⟩ := List.mem_map.1 hmem
            obtain ⟨_, _, _, _, _, xx, _, hy, h1, h2, h4⟩ := ihm en' hen'
            apply h4
            unfold entryKey at hke
            rw [hy, h1, h2] at hke
            injection hke with k1 k2
            injection k2 with k2a k2b
            rw [k1, Option.some.inj k2a, Option.some.inj k2b]
            exact List.mem_cons_self _ _
          · intro en hen
            rcases List.mem_cons.1 hen with heq | hmem
            · subst heq
              exact ⟨rfl, rfl, rfl, rfl, rfl,
                (year, s, e, star), List.mem_cons_self _ _, rfl, rfl, rfl, hs⟩
            · obtain ⟨p1, p2, p3, p4, p5, xx, hx, hy, h1, h2, h4⟩ := ihm en hmem
              exact ⟨p1, p2, p3, p4, p5, xx, List.mem_cons_of_mem _ hx, hy, h1, h2,
                fun hc => h4 (List.mem_cons_of_mem _ hc)⟩

lemma dOrd_same {s t : DateT} (hy : s.y = t.y) (hm : s.m = t.m) : dOrd s t := by
  unfold dOrd dateLe
  omega

/-- C1 counterexample: the spec's concrete cross-month example
"Dec 31-Jan 1" does not match the cross-month pattern (which requires the
slash form `Month1/Month2 D1-D2`); it falls through to the single-day
pattern, so under contextual year 2024 the parser returns
`start_date = end_date = 2024-12-31`, not `end_date = 2025-01-01`. -/
theorem C1_counterexample :
    (parse_dates_and_flags 2024 "Dec 31-Jan 1" false).dates =
      some (⟨2024, 12, 31⟩, ⟨2024, 12, 31⟩) ∧
    (parse_dates_and_flags 2024 "Dec 31-Jan 1" false).dates ≠
      some (⟨2024, 12, 31⟩, ⟨2025, 1, 1⟩) ∧
    (parse_dates_from_text 2024 "Dec 31-Jan 1").dates =
      some (⟨2024, 12, 31⟩, ⟨2024, 12, 31⟩) := by
  refine ⟨by decide, by decide, by decide⟩

/-- C1 (amended): the cross-month rollover works on the slash form
"Dec/Jan 31-1": with contextual year 2024 both date parsers yield
`start_date = 2024-12-31`, `end_date = 2025-01-01`; and in general,
whenever the cross-month pattern matches with months `m1`, `m2` and days
`d1`, `d2`, the start date is `(year, m1, d1)` and the end date is
`(year + 1, m2, d2)` exactly when `m2 < m1` numerically, else
`(year, m2, d2)`. -/
theorem C1_cross_month_rollover :
    ((parse_dates_and_flags 2024 "Dec/Jan 31-1" false).dates =
      some (⟨2024, 12, 31⟩, ⟨2025, 1, 1⟩)) ∧
    ((parse_dates_from_text 2024 "Dec/Jan 31-1").dates =
      some (⟨2024, 12, 31⟩, ⟨2025, 1, 1⟩)) ∧
    ∀ (year : Nat) (tw : List Char) (m1 m2 d1 d2 : Nat),
      searchCross tw = some (m1, m2, d1, d2) →
      datesFromText year tw =
        some (⟨year, m1, d1⟩, ⟨year + (if m2 < m1 then 1 else 0), m2, d2⟩) := by
  refine ⟨by decide, by decide, ?_⟩
  intro year tw m1 m2 d1 d2 h
  unfold datesFromText
  rw [h]

/-- C1 witness: the general rollover statement applied at the concrete
slash-form input. -/
theorem C1_cross_month_rollover_witness :
    datesFromText 2024 "Dec/Jan 31-1".data =
      some (⟨2024, 12, 31⟩, ⟨2025, 1, 1⟩) := by
  have h := C1_cross_month_rollover.2.2 2024 "Dec/Jan 31-1".data 12 1 31 1 (by decide)
  simpa using h

/-- C4 (code bug): a container whose date text names a day that does not
exist in the month is NOT skipped.  On the in-progress pipeline the
container "Feb 30 (cancelled)" under year 2024 reaches
`_date_from_iso(end_date)`, whose `datetime.date` constructor raises an
uncaught `ValueError`, so the whole extraction call raises; and on the
historical pipeline "Feb 30" produces an output entry carrying the
non-existent date 2024-02-30 instead of being skipped. -/
theorem C4_invalid_day_raises :
    parse_current_calendar
      [{ dateText := "Feb 30 (cancelled)", year := some 2024,
         statement_url_html := none, minutes_url_html := none,
         press_conference_url_html := none, has_projection := false }] =
      .error "ValueError" ∧
    (parse_year_page 2024
      [{ text := "Feb 30", statement_url_html := some "s",
         minutes_url_html := none, press_conference_url_html := none,
         has_projection := false }] "u").map (fun e => e.end_date) =
      [some ⟨2024, 2, 30⟩] := by
  exact ⟨by rfl, by decide⟩

/-- C7: on the in-progress pipeline, a container that parses to a
Scheduled, non-cancelled meeting but carries no statement-classified
link is dropped by the statement gate: processing it leaves the records
dict unchanged, and a call on just that container returns no entries. -/
theorem C7_statement_gate :
    ∀ (recs : RecMap) (c : Container) (y : Nat),
      c.year = some y →
      (parse_dates_and_flags y c.dateText c.has_projection).meeting_type =
        "Scheduled" →
      (parse_dates_and_flags y c.dateText c.has_projection).is_cancelled = false →
      c.statement_url_html = none →
      processContainer recs c = .ok recs ∧ parse_current_calendar [c] = .ok [] := by
  intro recs c y hy hmt hcanc hstmt
  have hskip : container_record c = .skip := by
    unfold container_record
    dsimp only
    split
    · rfl
    · rw [hy]
      dsimp only
      cases hd : (parse_dates_and_flags y c.dateText c.has_projection).dates with
      | none => rfl
      | some p =>
        obtain ⟨sd, ed⟩ := p
        dsimp only
        rw [hmt, hcanc, hstmt]
        rfl
  refine ⟨processContainer_of_skip hskip, ?_⟩
  unfold parse_current_calendar runContainers
  rw [processContainer_of_skip hskip]
  rfl

/-- C7 witness: the gate applied to a concrete scheduled container with
no statement link. -/
theorem C7_statement_gate_witness :
    processContainer []
      { dateText := "Mar 4-5", year := some 2024, statement_url_html := none,
        minutes_url_html := none, press_conference_url_html := none,
        has_projection := false } = .ok [] ∧
    parse_current_calendar
      [{ dateText := "Mar 4-5", year := some 2024, statement_url_html := none,
         minutes_url_html := none, press_conference_url_html := none,
         has_projection := false }] = .ok [] := by
  exact C7_statement_gate [] _ 2024 (by decide) (by decide) (by decide) (by decide)

/-- C10: every entry the future-only pipeline returns is a Scheduled,
non-cancelled meeting with all three document-link fields absent,
whatever the input sections and the current date. -/
theorem C10_future_constant_fields :
    ∀ (today : DateT) (sections : List (Nat × List (String × String))),
      ∀ e ∈ parse_future_calendar today sections,
        e.meeting_type = "Scheduled" ∧ e.is_cancelled = false ∧
        e.statement_url_html = none ∧ e.minutes_url_html = none ∧
        e.press_conference_url_html = none := by
  intro today sections e he
  unfold parse_future_calendar at he
  obtain ⟨p1, p2, p3, p4, p5, _⟩ := (futureRows_spec today _ []).2 e he
  exact ⟨p1, p2, p3, p4, p5⟩

/-- C10 witness: the constant-fields fact at the single entry a
concrete future page with one June 2025 meeting row produces. -/
theorem C10_future_constant_fields_witness :
    ({ year := 2025, start_date := some ⟨2025, 6, 17⟩,
       end_date := some ⟨2025, 6, 18⟩, meeting_type := "Scheduled",
       is_cancelled := false, has_sep_projections := true,
       statement_url_html := none, minutes_url_html := none,
       press_conference_url_html := none,
       source_url := CURRENT_CALENDAR_URL } : CurrentCalendarEntry).meeting_type =
        "Scheduled" ∧
    ({ year := 2025, start_date := some ⟨2025, 6, 17⟩,
       end_date := some ⟨2025, 6, 18⟩, meeting_type := "Scheduled",
       is_cancelled := false, has_sep_projections := true,
       statement_url_html := none, minutes_url_html := none,
       press_conference_url_html := none,
       source_url := CURRENT_CALENDAR_URL } : CurrentCalendarEntry).is_cancelled =
        false ∧
    ({ year := 2025, start_date := some ⟨2025, 6, 17⟩,
       end_date := some ⟨2025, 6, 18⟩, meeting_type := "Scheduled",
       is_cancelled := false, has_sep_projections := true,
       statement_url_html := none, minutes_url_html := none,
       press_conference_url_html := none,
       source_url := CURRENT_CALENDAR_URL } : CurrentCalendarEntry).statement_url_html =
        none ∧
    ({ year := 2025, start_date := some ⟨2025, 6, 17⟩,
       end_date := some ⟨2025, 6, 18⟩, meeting_type := "Scheduled",
       is_cancelled := false, has_sep_projections := true,
       statement_url_html := none, minutes_url_html := none,
       press_conference_url_html := none,
       source_url := CURRENT_CALENDAR_URL } : CurrentCalendarEntry).minutes_url_html =
        none ∧
    ({ year := 2025, start_date := some ⟨2025, 6, 17⟩,
       end_date := some ⟨2025, 6, 18⟩, meeting_type := "Scheduled",
       is_cancelled := false, has_sep_projections := true,
       statement_url_html := none, minutes_url_html := none,
       press_conference_url_html := none,
       source_url := CURRENT_CALENDAR_URL } :
      CurrentCalendarEntry).press_conference_url_html = none := by
  exact C10_future_constant_fields ⟨2025, 6, 1⟩ [(2025, [("June", "17-18*")])] _
    (by decide)

/-- C2 counterexample: the engine never compares the two day numbers of
a same-month range, so the container text "Mar 19-5 (cancelled)" under
year 2024 produces an output entry of the in-progress pipeline with
`start_date = 2024-03-19` after `end_date = 2024-03-05`. -/
theorem C2_counterexample :
    (okEntries (parse_current_calendar
      [{ dateText := "Mar 19-5 (cancelled)", year := some 2024,
         statement_url_html := none, minutes_url_html := none,
         press_conference_url_html := none, has_projection := false }])).map
      (fun e => (e.start_date, e.end_date)) =
      [(some ⟨2024, 3, 19⟩, some ⟨2024, 3, 5⟩)] ∧
    ¬ dateLe ⟨2024, 3, 19⟩ ⟨2024, 3, 5⟩ := by
  exact ⟨by decide, by decide⟩

/-- C2 (amended): for every entry of any of the three pipelines in which
both dates are present, either `start_date <= end_date` holds or the two
dates share year and month with the end day strictly below the start day
(a reversed range such as "Mar 19-5", whose day order the engine never
validates). -/
theorem C2_start_le_end :
    (∀ (cs : List Container) (es : List CurrentCalendarEntry),
      parse_current_calendar cs = .ok es →
      ∀ e ∈ es, ∀ s t, e.start_date = some s → e.end_date = some t → dOrd s t) ∧
    (∀ (pages : List (Nat × String × List HistItem)),
      ∀ e ∈ parse_historical pages,
      ∀ s t, e.start_date = some s → e.end_date = some t → dOrd s t) ∧
    (∀ (today : DateT) (sections : List (Nat × List (String × String))),
      ∀ e ∈ parse_future_calendar today sections,
      ∀ s t, e.start_date = some s → e.end_date = some t → dOrd s t) := by
  refine ⟨?_, ?_, ?_⟩
  · intro cs es h e he s t hs ht
    unfold parse_current_calendar at h
    cases hrun : runContainers cs [] with
    | error msg => rw [hrun] at h; cases h
    | ok recs =>
      rw [hrun] at h
      injection h with h'
      subst h'
      obtain ⟨p, hp, hpe⟩ := List.mem_map.1 he
      obtain ⟨g1, g2, g3, g4⟩ :=
        runContainers_good cs [] recs hrun (fun q hq => absurd hq (List.not_mem_nil q))
          p hp
      rw [hpe] at g2 g3
      rw [hs] at g2
      rw [ht] at g3
      rw [Option.some.inj g2, Option.some.inj g3]
      exact g4
  · intro pages
    induction pages with
    | nil => intro e he; cases he
    | cons page rest ih =>
      intro e he s t hs ht
      obtain ⟨y, url, items⟩ := page
      rcases List.mem_append.1 he with hpage | hrest
      · obtain ⟨sd, ed, h1, h2, h3, _, _⟩ :=
          (parseYearAux_spec y url items []).2 e hpage
        rw [hs] at h1
        rw [ht] at h2
        rw [← Option.some.inj h1, ← Option.some.inj h2] at h3
        exact h3
      · exact ih e hrest s t hs ht
  · intro today sections e he s t hs ht
    unfold parse_future_calendar at he
    obtain ⟨_, _, _, _, _, x, hx, _, h1, h2, _⟩ :=
      (futureRows_spec today _ []).2 e he
    obtain ⟨l, hl, hxl⟩ := List.mem_flatten.1 hx
    obtain ⟨sec, hsec, hlsec⟩ := List.mem_map.1 hl
    rw [← hlsec] at hxl
    obtain ⟨r, hr, hrx⟩ := List.mem_map.1 hxl
    obtain ⟨sh1, sh2⟩ := parse_with_dom_shape hr
    rw [hs] at h1
    rw [ht] at h2
    have hsx : s = x.2.1 := Option.some.inj h1
    have htx : t = x.2.2.1 := Option.some.inj h2
    rw [← hrx] at hsx htx
    subst hsx
    subst htx
    exact dOrd_same sh1 sh2

/-- C2 witness: the amended bound applied to a concrete one-container
run of the in-progress pipeline (an unscheduled May 6-7 meeting). -/
theorem C2_start_le_end_witness : dOrd ⟨2024, 5, 6⟩ ⟨2024, 5, 7⟩ := by
  refine C2_start_le_end.1
    [{ dateText := "May 6-7 (unscheduled)", year := some 2024,
       statement_url_html := none, minutes_url_html := none,
       press_conference_url_html := none, has_projection := false }]
    [{ year := 2024, start_date := some ⟨2024, 5, 6⟩, end_date := some ⟨2024, 5, 7⟩,
       meeting_type := "Unscheduled", is_cancelled := false,
       has_sep_projections := false, statement_url_html := none,
       minutes_url_html := none, press_conference_url_html := none,
       source_url := CURRENT_CALENDAR_URL }]
    (by rfl) _ (List.mem_cons_self _ _) ⟨2024, 5, 6⟩ ⟨2024, 5, 7⟩ rfl rfl

/-- C3 counterexample: one `parse_historical` call that fetches two
pages for the same year (the source's `links` list regularly holds both
the index link and the direct `fomccalendars{year}.htm` URL for one
year) returns two entries with the same identity key, because the `seen`
set is fresh per page and nothing deduplicates across pages. -/
theorem C3_counterexample :
    ((parse_historical
      [(2024, "u1", [(⟨"May 1", some "s", none, none, false⟩ : HistItem)]),
       (2024, "u2", [(⟨"May 1", some "s", none, none, false⟩ : HistItem)])]).map
        entryKey =
      [(2024, some ⟨2024, 5, 1⟩, some ⟨2024, 5, 1⟩),
       (2024, some ⟨2024, 5, 1⟩, some ⟨2024, 5, 1⟩)]) ∧
    ¬ ((parse_historical
      [(2024, "u1", [(⟨"May 1", some "s", none, none, false⟩ : HistItem)]),
       (2024, "u2", [(⟨"May 1", some "s", none, none, false⟩ : HistItem)])]).map
        entryKey).Nodup := by
  exact ⟨by decide, by decide⟩

/-- C3 (amended): no two entries share the identity key
`(year, start_date, end_date)` within a single `parse_current_calendar`
call, within a single `parse_future_calendar` call, or within one year
page of the historical pipeline; a `parse_historical` call that covers
the same year through several pages can repeat keys across pages. -/
theorem C3_key_uniqueness :
    (∀ (cs : List Container) (es : List CurrentCalendarEntry),
      parse_current_calendar cs = .ok es → (es.map entryKey).Nodup) ∧
    (∀ (y : Nat) (items : List HistItem) (url : String),
      ((parse_year_page y items url).map entryKey).Nodup) ∧
    (∀ (today : DateT) (sections : List (Nat × List (String × String))),
      ((parse_future_calendar today sections).map entryKey).Nodup) := by
  refine ⟨?_, ?_, ?_⟩
  · intro cs es h
    unfold parse_current_calendar at h
    cases hrun : runContainers cs [] with
    | error msg => rw [hrun] at h; cases h
    | ok recs =>
      rw [hrun] at h
      injection h with h'
      subst h'
      have hgood :=
        runContainers_good cs [] recs hrun (fun q hq => absurd hq (List.not_mem_nil q))
      have hnodup := runContainers_nodup cs [] recs hrun (by simp)
      rw [List.map_map]
      have : (recs.map (entryKey ∘ Prod.snd)) = recs.map (fun p => entryKey p.2) := rfl
      rw [this, map_entryKey_eq hgood]
      exact hnodup.map keyView_inj
  · intro y items url
    exact (parseYearAux_spec y url items []).1
  · intro today sections
    exact (futureRows_spec today _ []).1

/-- C3 witness: key uniqueness on a concrete two-container run of the
in-progress pipeline producing two distinct meetings. -/
theorem C3_key_uniqueness_witness :
    (([{ year := 2024, start_date := some ⟨2024, 5, 6⟩,
         end_date := some ⟨2024, 5, 7⟩, meeting_type := "Unscheduled",
         is_cancelled := false, has_sep_projections := false,
         statement_url_html := none, minutes_url_html := none,
         press_conference_url_html := none,
         source_url := CURRENT_CALENDAR_URL },
       { year := 2024, start_date := some ⟨2024, 6, 12⟩,
         end_date := some ⟨2024, 6, 12⟩, meeting_type := "Unscheduled",
         is_cancelled := false, has_sep_projections := false,
         statement_url_html := none, minutes_url_html := none,
         press_conference_url_html := none,
         source_url := CURRENT_CALENDAR_URL }] :
      List CurrentCalendarEntry).map entryKey).Nodup := by
  refine C3_key_uniqueness.1
    [{ dateText := "May 6-7 (unscheduled)", year := some 2024,
       statement_url_html := none, minutes_url_html := none,
       press_conference_url_html := none, has_projection := false },
     { dateText := "June 12 (unscheduled)", year := some 2024,
       statement_url_html := none, minutes_url_html := none,
       press_conference_url_html := none, has_projection := false }]
    _ (by rfl)

/-- C6 counterexample: on the historical pipeline two items with the
same identity key, the first carrying only a minutes link and the second
only a statement link, do NOT merge: the second is dropped whole
(`if key in seen: continue`), so the single output entry has no
statement link. -/
theorem C6_counterexample :
    (parse_year_page 2024
      [(⟨"May 1", none, some "m", none, false⟩ : HistItem),
       (⟨"May 1", some "s", none, none, false⟩ : HistItem)] "u").map
      (fun e => (e.statement_url_html, e.minutes_url_html)) =
    [(none, some "m")] := by
  decide

/-- C6 (amended): on the in-progress pipeline the assembler merges a
later container with an existing key by filling exactly the unset link
fields, never overwriting a set link and keeping the first-seen
meeting_type and is_cancelled; in particular a minutes-only container
and a statement-only container with the same key merge into one entry
carrying both links.  On the historical pipeline no such merge happens:
a later duplicate-key item is discarded entirely. -/
theorem C6_merge_links :
    (∀ (recs : RecMap) (c : Container) (k : EntryKey)
        (e old : CurrentCalendarEntry),
      container_record c = .entry k e → findEntry k recs = some old →
      processContainer recs c =
        .ok (updateEntry k (fun o => fillLinks o c) recs)) ∧
    (∀ (old : CurrentCalendarEntry) (c : Container),
      (fillLinks old c).statement_url_html =
        (if old.statement_url_html.isNone then c.statement_url_html
         else old.statement_url_html) ∧
      (fillLinks old c).minutes_url_html =
        (if old.minutes_url_html.isNone then c.minutes_url_html
         else old.minutes_url_html) ∧
      (fillLinks old c).press_conference_url_html =
        (if old.press_conference_url_html.isNone then c.press_conference_url_html
         else old.press_conference_url_html) ∧
      (fillLinks old c).meeting_type = old.meeting_type ∧
      (fillLinks old c).is_cancelled = old.is_cancelled ∧
      (∀ u, old.statement_url_html = some u →
        (fillLinks old c).statement_url_html = some u) ∧
      (∀ u, old.minutes_url_html = some u →
        (fillLinks old c).minutes_url_html = some u) ∧
      (∀ u, old.press_conference_url_html = some u →
        (fillLinks old c).press_conference_url_html = some u)) ∧
    ((okEntries (parse_current_calendar
      [(⟨"May 1 (unscheduled)", some 2024, none, some "m", none, false⟩ :
          Container),
       (⟨"May 1", some 2024,
          some "https://www.federalreserve.gov/newsevents/pressreleases/monetary20240501a.htm",
          none, none, false⟩ : Container)])).map
      (fun e => (e.statement_url_html, e.minutes_url_html)) =
    [(some "https://www.federalreserve.gov/newsevents/pressreleases/monetary20240501a.htm",
      some "m")]) := by
  refine ⟨?_, ?_, by decide⟩
  · intro recs c k e old h hfind
    unfold processContainer
    rw [h]
    dsimp only
    rw [hfind]
  · intro old c
    refine ⟨rfl, rfl, rfl, rfl, rfl, ?_, ?_, ?_⟩
    · intro u hu
      unfold fillLinks
      rw [hu]
      rfl
    · intro u hu
      unfold fillLinks
      rw [hu]
      rfl
    · intro u hu
      unfold fillLinks
      rw [hu]
      rfl

/-- C6 witness: the merge-step equation applied at a concrete record
map holding the key already. -/
theorem C6_merge_links_witness :
    processContainer
      [((2024, ⟨2024, 5, 1⟩, ⟨2024, 5, 1⟩),
        { year := 2024, start_date := some ⟨2024, 5, 1⟩,
          end_date := some ⟨2024, 5, 1⟩, meeting_type := "Unscheduled",
          is_cancelled := false, has_sep_projections := false,
          statement_url_html := none, minutes_url_html := some "m",
          press_conference_url_html := none,
          source_url := CURRENT_CALENDAR_URL })]
      (⟨"May 1 (unscheduled)", some 2024, some "s2", none, none, false⟩ :
        Container) =
    .ok (updateEntry (2024, ⟨2024, 5, 1⟩, ⟨2024, 5, 1⟩)
      (fun o => fillLinks o
        (⟨"May 1 (unscheduled)", some 2024, some "s2", none, none, false⟩ :
          Container))
      [((2024, ⟨2024, 5, 1⟩, ⟨2024, 5, 1⟩),
        { year := 2024, start_date := some ⟨2024, 5, 1⟩,
          end_date := some ⟨2024, 5, 1⟩, meeting_type := "Unscheduled",
          is_cancelled := false, has_sep_projections := false,
          statement_url_html := none, minutes_url_html := some "m",
          press_conference_url_html := none,
          source_url := CURRENT_CALENDAR_URL })]) := by
  refine C6_merge_links.1 _ _ (2024, ⟨2024, 5, 1⟩, ⟨2024, 5, 1⟩)
    { year := 2024, start_date := some ⟨2024, 5, 1⟩,
      end_date := some ⟨2024, 5, 1⟩, meeting_type := "Unscheduled",
      is_cancelled := false, has_sep_projections := false,
      statement_url_html := some "s2", minutes_url_html := none,
      press_conference_url_html := none,
      source_url := CURRENT_CALENDAR_URL }
    _ (by rfl) (by rfl)

lemma extract_press_valid {u : String} {p : DateT}
    (h : extract_press_date_from_url (some u) = some p) :
    mkValidDate p.y p.m p.d = some p := by
  unfold extract_press_date_from_url at h
  dsimp only at h
  split at h
  · cases h
  · have hp := mkValidDate_some h
    subst hp
    exact h

lemma findEntry_append_self (k : EntryKey) (e : CurrentCalendarEntry)
    (recs : RecMap) : (findEntry k (recs ++ [(k, e)])).isSome := by
  induction recs with
  | nil => simp [findEntry]
  | cons p rest ih =>
    by_cases hk : p.1 = k
    · simp [findEntry, hk]
    · simpa [findEntry, hk] using ih

lemma findEntry_update_isSome {k : EntryKey} {old : CurrentCalendarEntry}
    {recs : RecMap} (f : CurrentCalendarEntry → CurrentCalendarEntry)
    (h : findEntry k recs = some old) :
    (findEntry k (updateEntry k f recs)).isSome := by
  induction recs with
  | nil => cases h
  | cons p rest ih =>
    by_cases hk : p.1 = k
    · simp [findEntry, updateEntry, hk]
    · rw [findEntry, if_neg hk] at h
      rw [updateEntry, if_neg hk, findEntry, if_neg hk]
      exact ih h

/-- C8: on the in-progress pipeline, an entry whose statement link embeds
an eight-digit date is discarded when that embedded date differs from the
computed end date (processing the container leaves the records dict
unchanged), and kept (its key present in the resulting records dict) when
the embedded date equals the computed end date. -/
theorem C8_press_date_cross_check :
    (∀ (recs : RecMap) (c : Container) (y : Nat) (u : String) (p sd ed : DateT),
      c.year = some y → c.statement_url_html = some u →
      extract_press_date_from_url (some u) = some p →
      (parse_dates_and_flags y c.dateText c.has_projection).dates = some (sd, ed) →
      mkValidDate ed.y ed.m ed.d = some ed →
      p ≠ ed →
      processContainer recs c = .ok recs) ∧
    (∀ (recs : RecMap) (c : Container) (y : Nat) (u : String) (sd ed : DateT),
      (c.dateText.data.isEmpty || !containsMonthToken c.dateText.data) = false →
      c.year = some y → c.statement_url_html = some u →
      extract_press_date_from_url (some u) = some ed →
      (parse_dates_and_flags y c.dateText c.has_projection).dates = some (sd, ed) →
      ∃ recs', processContainer recs c = .ok recs' ∧
        (findEntry (y, sd, ed) recs').isSome) := by
  constructor
  · intro recs c y u p sd ed hy hstmt hpress hdates hvalid hne
    have hskip : container_record c = .skip := by
      unfold container_record
      dsimp only
      split
      · rfl
      · rw [hy]
        dsimp only
        rw [hdates]
        dsimp only
        rw [if_neg (by rw [hstmt]; simp)]
        rw [hstmt]
        simp only [Option.isSome_some, if_true]
        rw [hvalid]
        dsimp only
        rw [if_pos]
        rw [hpress]
        simp [hne]
    exact processContainer_of_skip hskip
  · intro recs c y u sd ed hmonth hy hstmt hpress hdates
    have hvalid : mkValidDate ed.y ed.m ed.d = some ed := extract_press_valid hpress
    have hentry : container_record c = .entry (y, sd, ed)
        { year := y
          start_date := some sd
          end_date := some ed
          meeting_type := (parse_dates_and_flags y c.dateText c.has_projection).meeting_type
          is_cancelled := (parse_dates_and_flags y c.dateText c.has_projection).is_cancelled
          has_sep_projections := (parse_dates_and_flags y c.dateText c.has_projection).has_sep
          statement_url_html := c.statement_url_html
          minutes_url_html := c.minutes_url_html
          press_conference_url_html := c.press_conference_url_html
          source_url := CURRENT_CALENDAR_URL } := by
      unfold container_record
      dsimp only
      rw [if_neg (by rw [hmonth]; simp)]
      rw [hy]
      dsimp only
      rw [hdates]
      dsimp only
      rw [if_neg (by rw [hstmt]; simp)]
      rw [hstmt]
      simp only [Option.isSome_some, if_true]
      rw [hvalid]
      dsimp only
      rw [if_neg (by rw [hpress]; simp)]
    unfold processContainer
    rw [hentry]
    dsimp only
    cases hfind : findEntry (y, sd, ed) recs with
    | none =>
      refine ⟨_, rfl, ?_⟩
      exact findEntry_append_self _ _ _
    | some old =>
      refine ⟨_, rfl, ?_⟩
      exact findEntry_update_isSome _ hfind

/-- C8 witness: both directions of the cross-check at concrete
containers whose statement URLs embed 2024-05-02 (dropped, since the
parsed end date is 2024-05-01) and 2024-05-01 (kept). -/
theorem C8_press_date_cross_check_witness :
    (processContainer []
      (⟨"May 1", some 2024,
        some "https://www.federalreserve.gov/newsevents/pressreleases/monetary20240502a.htm",
        none, none, false⟩ : Container) = .ok []) ∧
    (∃ recs', processContainer []
      (⟨"May 1", some 2024,
        some "https://www.federalreserve.gov/newsevents/pressreleases/monetary20240501a.htm",
        none, none, false⟩ : Container) = .ok recs' ∧
      (findEntry (2024, ⟨2024, 5, 1⟩, ⟨2024, 5, 1⟩) recs').isSome) := by
  constructor
  · exact C8_press_date_cross_check.1 [] _ 2024
      "https://www.federalreserve.gov/newsevents/pressreleases/monetary20240502a.htm"
      ⟨2024, 5, 2⟩ ⟨2024, 5, 1⟩ ⟨2024, 5, 1⟩ rfl rfl (by decide) (by decide)
      (by decide) (by decide)
  · exact C8_press_date_cross_check.2 [] _ 2024
      "https://www.federalreserve.gov/newsevents/pressreleases/monetary20240501a.htm"
      ⟨2024, 5, 1⟩ ⟨2024, 5, 1⟩ (by decide) rfl rfl (by decide) (by decide)

/-- C9 counterexample: on the in-progress pipeline "cancelled" sets
`is_cancelled` only when it occurs inside the parenthetical note.  The
container text "Mar 5 cancelled" contains "cancelled" but has no
parenthetical, so the parser leaves `is_cancelled = false`, and the
resulting output entry carries `is_cancelled = false`, contradicting
"container text containing \"cancelled\" forces is_cancelled=true". -/
theorem C9_counterexample :
    containsSub "cancelled".data ("Mar 5 cancelled".data.map Char.toLower) = true ∧
    (parse_dates_and_flags 2024 "Mar 5 cancelled" false).is_cancelled = false ∧
    (okEntries (parse_current_calendar
      [(⟨"Mar 5 cancelled", some 2024,
         some "https://www.federalreserve.gov/newsevents/pressreleases/monetary20240305a.htm",
         none, none, false⟩ : Container)])).map (fun e => e.is_cancelled) =
      [false] := by
  exact ⟨by decide, by decide, by decide⟩

/-- C9 (amended): qualifier resolution.  On the in-progress pipeline the
qualifiers are read from the parenthetical note only: "notation vote"
wins over "unscheduled", otherwise "unscheduled" forces Unscheduled,
otherwise Scheduled; `is_cancelled` is true exactly when the (nonempty)
note contains "cancelled" or "canceled" — not when they appear elsewhere
in the container text.  On the historical pipeline the meeting type is
read from the whole collapsed lowercased text with the same precedence,
and `is_cancelled` is read from the whole lowercased container text. -/
theorem C9_qualifier_resolution :
    (∀ (y : Nat) (s : String) (pr : Bool),
      (parse_dates_and_flags y s pr).meeting_type =
        (qualifiersFromNote (noteAndRest (normalize_text (removeStars s.data))).1).1 ∧
      (parse_dates_and_flags y s pr).is_cancelled =
        (qualifiersFromNote (noteAndRest (normalize_text (removeStars s.data))).1).2) ∧
    (qualifiersFromNote none = ("Scheduled", false)) ∧
    (∀ n : List Char, ¬ n.isEmpty = true →
      (qualifiersFromNote (some n)).1 =
        (if containsSub "notation vote".data (n.map Char.toLower) then "Notation Vote"
         else if containsSub "unscheduled".data (n.map Char.toLower) then "Unscheduled"
         else "Scheduled") ∧
      (qualifiersFromNote (some n)).2 =
        (containsSub "cancelled".data (n.map Char.toLower) ||
          containsSub "canceled".data (n.map Char.toLower))) ∧
    (∀ (y : Nat) (s : String),
      (parse_dates_from_text y s).meeting_type =
        (if containsSub "notation vote".data ((normalize_text s.data).map Char.toLower)
         then "Notation Vote"
         else if containsSub "unscheduled".data
            ((normalize_text s.data).map Char.toLower)
         then "Unscheduled" else "Scheduled")) ∧
    (∀ (y : Nat) (it : HistItem) (url : String),
      ∀ e ∈ parse_year_page y [it] url,
        e.is_cancelled =
          (containsSub "cancelled".data (it.text.data.map Char.toLower) ||
            containsSub "canceled".data (it.text.data.map Char.toLower))) := by
  refine ⟨fun y s pr => ⟨rfl, rfl⟩, rfl, ?_, fun y s => rfl, ?_⟩
  · intro n hn
    unfold qualifiersFromNote
    dsimp only
    rw [if_neg hn]
    exact ⟨rfl, rfl⟩
  · intro y it url e he
    unfold parse_year_page at he
    cases hd : (parse_dates_from_text y it.text).dates with
    | none =>
      rw [parseYearAux_cons_none hd] at he
      cases he
    | some p =>
      obtain ⟨sd, ed⟩ := p
      rw [parseYearAux_cons_new hd (by simp)] at he
      rcases List.mem_cons.1 he with heq | hmem
      · subst heq
        rfl
      · cases hmem

/-- C9 witness: the note-scoped qualifier rules applied at concrete
nonempty notes. -/
theorem C9_qualifier_resolution_witness :
    (qualifiersFromNote (some "unscheduled".data)).1 = "Unscheduled" ∧
    (qualifiersFromNote (some "cancelled".data)).2 = true := by
  constructor
  · have h := C9_qualifier_resolution.2.2.1 "unscheduled".data (by decide)
    rw [h.1]
    decide
  · have h := C9_qualifier_resolution.2.2.1 "cancelled".data (by decide)
    rw [h.2]
    decide

/-- C5 counterexample: the output of the in-progress pipeline is not
invariant under reordering of the candidate containers.  Two containers
sharing the key 2024/May 6/May 7, one "(unscheduled)" and one
"(cancelled)", merge under first-seen-wins, so the two enumeration
orders of the same container set yield entries with different
`meeting_type` (and `is_cancelled`) — and the source holds the
candidates in an unordered Python `set` whose enumeration order is not a
function of the input HTML. -/
theorem C5_counterexample :
    ((okEntries (parse_current_calendar
      [(⟨"May 6-7 (unscheduled)", some 2024, none, none, none, false⟩ : Container),
       (⟨"May 6-7 (cancelled)", some 2024, none, none, none, false⟩ : Container)])).map
      (fun e => e.meeting_type) = ["Unscheduled"]) ∧
    ((okEntries (parse_current_calendar
      [(⟨"May 6-7 (cancelled)", some 2024, none, none, none, false⟩ : Container),
       (⟨"May 6-7 (unscheduled)", some 2024, none, none, none, false⟩ : Container)])).map
      (fun e => e.meeting_type) = ["Scheduled"]) ∧
    List.Perm
      [(⟨"May 6-7 (unscheduled)", some 2024, none, none, none, false⟩ : Container),
       (⟨"May 6-7 (cancelled)", some 2024, none, none, none, false⟩ : Container)]
      [(⟨"May 6-7 (cancelled)", some 2024, none, none, none, false⟩ : Container),
       (⟨"May 6-7 (unscheduled)", some 2024, none, none, none, false⟩ : Container)] ∧
    okEntries (parse_current_calendar
      [(⟨"May 6-7 (unscheduled)", some 2024, none, none, none, false⟩ : Container),
       (⟨"May 6-7 (cancelled)", some 2024, none, none, none, false⟩ : Container)]) ≠
    okEntries (parse_current_calendar
      [(⟨"May 6-7 (cancelled)", some 2024, none, none, none, false⟩ : Container),
       (⟨"May 6-7 (unscheduled)", some 2024, none, none, none, false⟩ : Container)]) := by
  exact ⟨by decide, by decide, List.Perm.swap _ _ [], by decide⟩

lemma keys_transfer {l1 l2 : List Container} {r1 r2 : RecMap}
    (hsub : l1 ⊆ l2)
    (h1 : runContainers l1 [] = .ok r1) (h2 : runContainers l2 [] = .ok r2) :
    ∀ κ, (∃ e ∈ r1.map (fun p => p.2), entryKey e = κ) →
      ∃ e ∈ r2.map (fun p => p.2), entryKey e = κ := by
  intro κ ⟨e, he, hek⟩
  have hg1 := runContainers_good l1 [] r1 h1 (fun q hq => absurd hq (List.not_mem_nil q))
  have hg2 := runContainers_good l2 [] r2 h2 (fun q hq => absurd hq (List.not_mem_nil q))
  obtain ⟨p, hp, hpe⟩ := List.mem_map.1 he
  obtain ⟨g1, g2, g3, _⟩ := hg1 p hp
  have hkv : κ = keyView p.1 := by
    rw [← hek, ← hpe]
    unfold entryKey keyView
    rw [g1, g2, g3]
  have hk1 : p.1 ∈ r1.map Prod.fst := List.mem_map_of_mem _ hp
  have hcl1 : ∃ c ∈ l1, keyedBy c p.1 := by
    have h := (runContainers_keys l1 [] r1 h1 p.1).1 hk1
    simpa using h
  have hcl2 : ∃ c ∈ l2, keyedBy c p.1 := by
    obtain ⟨cc, hcc, hk⟩ := hcl1
    exact ⟨cc, hsub hcc, hk⟩
  have hk2 : p.1 ∈ r2.map Prod.fst := by
    refine (runContainers_keys l2 [] r2 h2 p.1).2 ?_
    simpa using hcl2
  obtain ⟨q, hq, hqf⟩ := List.mem_map.1 hk2
  refine ⟨q.2, List.mem_map_of_mem _ hq, ?_⟩
  obtain ⟨G1, G2, G3, _⟩ := hg2 q hq
  rw [hkv]
  unfold entryKey keyView
  rw [G1, G2, G3, hqf]

/-- C5 (amended): extraction is a deterministic function of the
candidate-container enumeration sequence; across permutations of that
sequence, whether the call raises and the SET of identity keys in the
output are invariant, but (per the counterexample) the field values of
entries whose key is derived by several containers are not, so two runs
are only guaranteed order-insensitively identical when the unordered
candidate set is enumerated in the same order. -/
theorem C5_key_set_order_invariant :
    ∀ (l1 l2 : List Container), l1.Perm l2 →
      exceptOk (parse_current_calendar l1) = exceptOk (parse_current_calendar l2) ∧
      ∀ κ, (∃ e ∈ okEntries (parse_current_calendar l1), entryKey e = κ) ↔
        (∃ e ∈ okEntries (parse_current_calendar l2), entryKey e = κ) := by
  intro l1 l2 hperm
  by_cases herr : ∀ c ∈ l1, container_record c ≠ .err
  · have herr2 : ∀ c ∈ l2, container_record c ≠ .err := fun c hc =>
      herr c (hperm.mem_iff.2 hc)
    obtain ⟨r1, h1⟩ := runContainers_ok_of_no_err l1 [] herr
    obtain ⟨r2, h2⟩ := runContainers_ok_of_no_err l2 [] herr2
    have hp1 : parse_current_calendar l1 = .ok (r1.map (fun p => p.2)) := by
      unfold parse_current_calendar
      rw [h1]
    have hp2 : parse_current_calendar l2 = .ok (r2.map (fun p => p.2)) := by
      unfold parse_current_calendar
      rw [h2]
    rw [hp1, hp2]
    refine ⟨rfl, fun κ => ⟨?_, ?_⟩⟩
    · exact keys_transfer hperm.subset h1 h2 κ
    · exact keys_transfer hperm.symm.subset h2 h1 κ
  · have herr' : ∃ c ∈ l1, container_record c = .err := by
      push_neg at herr
      simpa using herr
    obtain ⟨c0, hc0, hcerr⟩ := herr'
    have e1 : ∃ msg, parse_current_calendar l1 = .error msg := by
      cases hrun : runContainers l1 [] with
      | ok r => exact absurd hcerr (runContainers_no_err l1 [] r hrun c0 hc0)
      | error msg =>
        refine ⟨msg, ?_⟩
        unfold parse_current_calendar
        rw [hrun]
    have e2 : ∃ msg, parse_current_calendar l2 = .error msg := by
      cases hrun : runContainers l2 [] with
      | ok r =>
        exact absurd hcerr
          (runContainers_no_err l2 [] r hrun c0 (hperm.subset hc0))
      | error msg =>
        refine ⟨msg, ?_⟩
        unfold parse_current_calendar
        rw [hrun]
    obtain ⟨m1, hm1⟩ := e1
    obtain ⟨m2, hm2⟩ := e2
    rw [hm1, hm2]
    exact ⟨rfl, fun κ => by simp [okEntries]⟩

/-- C5 witness: invariance applied to a concrete two-element
permutation. -/
theorem C5_key_set_order_invariant_witness :
    exceptOk (parse_current_calendar
      [(⟨"May 6-7 (unscheduled)", some 2024, none, none, none, false⟩ : Container),
       (⟨"May 6-7 (cancelled)", some 2024, none, none, none, false⟩ : Container)]) =
    exceptOk (parse_current_calendar
      [(⟨"May 6-7 (cancelled)", some 2024, none, none, none, false⟩ : Container),
       (⟨"May 6-7 (unscheduled)", some 2024, none, none, none, false⟩ : Container)]) := by
  exact (C5_key_set_order_invariant _ _ (List.Perm.swap _ _ [])).1
